import Mathlib

/-!
Verification of the secp256k1 algebraic engine (field arithmetic, affine and
Jacobian point arithmetic, key-pair derivation) against its specification.

The Rust source is embedded shallowly:

* `U256` values become `Nat`; the `primitive_types` operators `+` and `-`
  abort on overflow / underflow, so they are modelled as `Option Nat`
  (`none` = the operation aborts).
* `FieldElement::inverse` contains an unbounded `while` loop, modelled by a
  fuel-indexed recursion (`inverseLoop`); `none` covers both an abort and
  fuel exhaustion, and a separate lemma shows the one divergent input
  diverges for every fuel, so `none` there is not a fuel artifact.
* All point operations thread these `Option`s through; a `none` result
  means the corresponding Rust computation aborts or never returns.
-/

namespace Engine

/-- The word size of the `U256` type: 2 to the power 256. -/
def U256SIZE : Nat := 2 ^ 256

/-- Prime of the secp256k1 curve (`P` in `modular_arithmetic.rs`, stored there
as four little-endian 64-bit limbs). -/
def P : Nat := 0xFFFFFFFFFFFFFFFFFFFFFFFFFFFFFFFFFFFFFFFFFFFFFFFFFFFFFFFEFFFFFC2F

/-- The `U256` addition of `primitive_types`: aborts (here `none`) when the
mathematical sum does not fit in 256 bits. -/
def u256add (a b : Nat) : Option Nat :=
  if a + b < U256SIZE then some (a + b) else none

/-- The `U256` subtraction of `primitive_types`: aborts (here `none`) on
underflow. -/
def u256sub (a b : Nat) : Option Nat :=
  if b ≤ a then some (a - b) else none

/-- `FieldElement` from `modular_arithmetic.rs`: a 256-bit value. -/
structure FieldElement where
  value : Nat
  deriving DecidableEq, Repr

/-- `FieldElement::new`: reduces the raw value modulo `P`.  The source also
checks `res < U256::zero()`, which is vacuous for the unsigned `U256`. -/
def FieldElement.new (value : Nat) : FieldElement :=
  ⟨value % P⟩

/-- The helper `multiply` of `modular_arithmetic.rs`: full 512-bit product,
reduction mod `P` in 512 bits, then truncation to the low 256 bits. -/
def multiply (a b : Nat) : Nat :=
  ((a * b) % P) % U256SIZE

/-- One iteration state step of the `while` loop in `FieldElement::inverse`
(extended Euclidean algorithm with the `t` track reduced modulo `P`),
indexed by fuel.  Returns the final `(t, r)` when the loop exits, `none`
when the fuel runs out first.  All three subtractions in the body are
guarded in the source (`t >= prod`, `prod - t < P`, and
`multiply(q, newR) <= r`), so plain `Nat` subtraction is exact here. -/
def inverseLoop : Nat → Nat → Nat → Nat → Nat → Option (Nat × Nat)
  | 0, _, _, _, _ => none
  | fuel + 1, t, newT, r, newR =>
    if newR = 0 then some (t, r)
    else
      let q := r / newR
      let prod := multiply q newT
      let nextT := if prod ≤ t then t - prod else P - (prod - t)
      inverseLoop fuel newT nextT newR (r - multiply q newR)

/-- `FieldElement::inverse`: aborts on zero (`none`), aborts on a value
outside the field, runs the extended Euclidean loop, aborts when the final
remainder exceeds 1.  The fuel `value + 1` is enough for every input on
which the Rust loop terminates; the single divergent input is covered by
`inverseLoop_one_diverges` below. -/
def FieldElement.inverse (a : FieldElement) : Option FieldElement :=
  if a.value = 0 then none
  else if P ≤ a.value then none
  else
    (inverseLoop (a.value + 1) 0 1 P a.value).bind fun tr =>
      if 1 < tr.2 then none else some (FieldElement.new tr.1)

/-- `impl Add for FieldElement`: `new(self.value + other.value)` where the
inner `+` is the aborting `U256` addition. -/
def FieldElement.add (a b : FieldElement) : Option FieldElement :=
  (u256add a.value b.value).map FieldElement.new

/-- `impl Sub for FieldElement`: borrows `P` when the minuend is smaller;
the outer `P - (other - self)` is the aborting `U256` subtraction. -/
def FieldElement.sub (a b : FieldElement) : Option FieldElement :=
  if b.value ≤ a.value then some (FieldElement.new (a.value - b.value))
  else (u256sub P (b.value - a.value)).map FieldElement.new

/-- `impl Mul for FieldElement`: the body of `multiply` followed by
`new` (total: the wide product cannot overflow). -/
def FieldElement.mul (a b : FieldElement) : FieldElement :=
  FieldElement.new (multiply a.value b.value)

/-- `impl Div for FieldElement`: `new(multiply(self.value, other.inverse().value))`,
inheriting the aborts of `inverse`. -/
def FieldElement.div (a b : FieldElement) : Option FieldElement :=
  (FieldElement.inverse b).map fun i => FieldElement.new (multiply a.value i.value)

theorem P_pos : 0 < P := by decide

theorem P_lt_u256size : P < U256SIZE := by decide

/-- `multiply` never needs the final truncation: the value is already
below `P`. -/
theorem multiply_eq_mod (a b : Nat) : multiply a b = (a * b) % P := by
  unfold multiply
  exact Nat.mod_eq_of_lt (lt_trans (Nat.mod_lt _ P_pos) P_lt_u256size)

theorem FieldElement.new_value (v : Nat) : (FieldElement.new v).value = v % P := rfl

theorem FieldElement.new_value_lt (v : Nat) : (FieldElement.new v).value < P :=
  Nat.mod_lt _ P_pos

theorem FieldElement.mul_value (a b : FieldElement) :
    (FieldElement.mul a b).value = (a.value * b.value) % P := by
  show multiply a.value b.value % P = _
  rw [multiply_eq_mod]
  exact Nat.mod_mod_of_dvd _ dvd_rfl

/-- Curve coefficient `A` from `point.rs` (`U256::zero()`). -/
def A : Nat := 0

/-- Curve coefficient `B` from `point.rs` (`U256([7, 0, 0, 0])`). -/
def B : Nat := 7

/-- `G_X_BYTES` of `point.rs`, as the big-endian 256-bit integer it encodes. -/
def GX : Nat := 0x79BE667EF9DCBBAC55A06295CE870B07029BFCDB2DCE28D959F2815B16F81798

/-- `G_Y_BYTES` of `point.rs`, as the big-endian 256-bit integer it encodes. -/
def GY : Nat := 0x483ADA7726A3C4655DA4FBFC0E1108A8FD17B448A68554199C47D08FFB10D4B8

/-- `EcPoint` from `point.rs`: the affine representation, a tagged union of
the point at infinity and a coordinate pair. -/
inductive EcPoint where
  | Infinity : EcPoint
  | Point (x y : FieldElement) : EcPoint
  deriving DecidableEq, Repr

/-- `EcPoint::add` from `point.rs`, branch for branch.  The two slope
computations divide through `FieldElement::inverse`, so the result is an
`Option`; every `FieldElement` subtraction also threads its `Option`. -/
def EcPoint.add (self other : EcPoint) : Option EcPoint :=
  match self, other with
  | .Infinity, o => some o
  | s, .Infinity => some s
  | .Point x1 y1, .Point x2 y2 =>
    if x1 = x2 then
      if y1 ≠ y2 then some .Infinity
      else if y1.value = 0 ∨ y2.value = 0 then some .Infinity
      else
        (u256add (multiply 3 (multiply x1.value x1.value)) A).bind fun rawNum =>
        let numerator := FieldElement.new rawNum
        let denominator := FieldElement.new (multiply 2 y1.value)
        (numerator.div denominator).bind fun s =>
        let sSquared := FieldElement.new (multiply s.value s.value)
        (sSquared.sub x1).bind fun d1 =>
        (d1.sub x2).bind fun x3 =>
        (x1.sub x3).bind fun d2 =>
        ((FieldElement.new (multiply s.value d2.value)).sub y1).bind fun y3 =>
        some (.Point x3 y3)
    else
      (y2.sub y1).bind fun dy =>
      (x2.sub x1).bind fun dx =>
      (dy.div dx).bind fun s =>
      let sSquared := FieldElement.new (multiply s.value s.value)
      (sSquared.sub x1).bind fun d1 =>
      (d1.sub x2).bind fun x3 =>
      (x1.sub x3).bind fun d2 =>
      ((FieldElement.new (multiply s.value d2.value)).sub y1).bind fun y3 =>
      some (.Point x3 y3)

/-- The generator in affine coordinates, as built by the helper
`get_generator` used throughout the tests of `point.rs`. -/
def gAffine : EcPoint :=
  EcPoint.Point (FieldElement.new GX) (FieldElement.new GY)

/-- `JacobianPoint` from `projective_point.rs`. -/
structure JacobianPoint where
  x : FieldElement
  y : FieldElement
  z : FieldElement
  deriving DecidableEq, Repr

/-- `JacobianPoint::is_infinity`: `z` equals zero. -/
def JacobianPoint.is_infinity (p : JacobianPoint) : Bool :=
  p.z.value == 0

/-- `JacobianPoint::infinity`: the canonical representative `(0, 1, 0)`. -/
def JacobianPoint.infinity : JacobianPoint :=
  ⟨FieldElement.new 0, FieldElement.new 1, FieldElement.new 0⟩

/-- `JacobianPoint::double` from `projective_point.rs`, operation for
operation: `a = x²`, `b = y²`, `c = b·y`, `s = 2((x+b)² − a − c)`,
`m = 3a`, `x₃ = m² − 2s`, `y₃ = m(s − x₃) − 8c`, `z₃ = 2yz`.  The single
`FieldElement` addition `x + b` can abort on `U256` overflow. -/
def JacobianPoint.double (p : JacobianPoint) : Option JacobianPoint :=
  let a := p.x.mul p.x
  let b := p.y.mul p.y
  let c := b.mul p.y
  (p.x.add b).bind fun xb =>
  ((xb.mul xb).sub a).bind fun t1 =>
  (t1.sub c).bind fun t2 =>
  let s := (FieldElement.new 2).mul t2
  let m := (FieldElement.new 3).mul a
  ((m.mul m).sub ((FieldElement.new 2).mul s)).bind fun x3 =>
  (s.sub x3).bind fun d =>
  ((m.mul d).sub ((FieldElement.new 8).mul c)).bind fun y3 =>
  let z3 := ((FieldElement.new 2).mul p.y).mul p.z
  some ⟨x3, y3, z3⟩

/-- `JacobianPoint::add` from `projective_point.rs`: identity cases, the
structural-equality fast path into `double`, and the general mixed
Jacobian addition. -/
def JacobianPoint.add (self other : JacobianPoint) : Option JacobianPoint :=
  if self.is_infinity then some other
  else if other.is_infinity then some self
  else if self = other then self.double
  else
    let z1Square := self.z.mul self.z
    let z2Square := other.z.mul other.z
    let u1 := self.x.mul z2Square
    let u2 := other.x.mul z1Square
    let s1 := (self.y.mul z2Square).mul other.z
    let s2 := (other.y.mul z1Square).mul self.z
    (u2.sub u1).bind fun h =>
    (s2.sub s1).bind fun r =>
    ((r.mul r).sub ((h.mul h).mul h)).bind fun d1 =>
    (d1.sub ((((FieldElement.new 2).mul u1).mul h).mul h)).bind fun x3 =>
    ((u1.mul (h.mul h)).sub x3).bind fun d2 =>
    ((r.mul d2).sub (s1.mul ((h.mul h).mul h))).bind fun y3 =>
    let z3 := (h.mul self.z).mul other.z
    some ⟨x3, y3, z3⟩

/-- `impl From<EcPoint> for JacobianPoint`: `(x, y) ↦ (x, y, 1)`,
`Infinity ↦ (0, 1, 0)`. -/
def JacobianPoint.fromEcPoint (ep : EcPoint) : JacobianPoint :=
  match ep with
  | .Infinity => JacobianPoint.infinity
  | .Point x y => ⟨x, y, FieldElement.new 1⟩

/-- `impl From<JacobianPoint> for EcPoint`: infinity when `z = 0`, else
`(x·(z²)⁻¹, y·(z³)⁻¹)` through two field inversions. -/
def EcPoint.fromJacobian (jp : JacobianPoint) : Option EcPoint :=
  if jp.is_infinity then some .Infinity
  else
    let zSquared := jp.z.mul jp.z
    let zCubed := zSquared.mul jp.z
    zSquared.inverse.bind fun zSquaredInv =>
    zCubed.inverse.bind fun zCubedInv =>
    some (.Point (jp.x.mul zSquaredInv) (jp.y.mul zCubedInv))

/-- The generator in Jacobian coordinates, as built by the test helper
`get_generator_jacobian` of `projective_point.rs`. -/
def gJacobian : JacobianPoint :=
  ⟨FieldElement.new GX, FieldElement.new GY, FieldElement.new 1⟩

/-- The affine sequence 0G, G, 2G, ... built with `EcPoint::add`:
`affSeq k` is `k`-times-G, each step adding the affine generator. -/
def affSeq : Nat → Option EcPoint
  | 0 => some EcPoint.Infinity
  | n + 1 => (affSeq n).bind fun p => p.add gAffine

/-- The Jacobian sequence 0G, G, 2G, ... built with `JacobianPoint::add`
starting from the identity; the second step `G + G` takes the structural
fast path into `JacobianPoint::double`. -/
def jacSeq : Nat → Option JacobianPoint
  | 0 => some JacobianPoint.infinity
  | n + 1 => (jacSeq n).bind fun p => p.add gJacobian

/-- Curve order `N` from `keypair.rs` (`CURVE_ORDER_HEX`, parsed radix 16). -/
def N : Nat := 0xFFFFFFFFFFFFFFFFFFFFFFFFFFFFFFFEBAAEDCE6AF48A03BBFD25E8CD0364141

/-- `PrivateKey` from `private_key.rs`: a tuple struct around a scalar. -/
structure PrivateKey where
  val : Nat
  deriving DecidableEq, Repr

/-- Modelled from the spec: `PublicKey` (its module `pubkey.rs` is missing
from the source tree; `keypair.rs` imports it).  The spec defines it as an
AffinePoint that must equal k·G. -/
structure PublicKey where
  point : EcPoint
  deriving DecidableEq, Repr

/-- `KeyPair` from `keypair.rs`: one private and one public key. -/
structure KeyPair where
  private_key : PrivateKey
  public_key : PublicKey
  deriving DecidableEq, Repr

/-- Modelled from the spec: one accumulator `m` steps into the binary
double-and-add scalar multiplication (`ScalarMultiplier` is left as a
commented-out `todo` stub in `projective_point.rs`).  Most-significant bit
first over the fixed 256-bit width: after `m` steps the bits 255 down to
`256 - m` have been processed; each step doubles the accumulator, then adds
`point` when the bit is set.  Doubling and addition are the `JacobianPoint`
operations of the source, so each step can abort. -/
def scalarMulAux (k : Nat) (point : JacobianPoint) : Nat → Option JacobianPoint
  | 0 => some JacobianPoint.infinity
  | m + 1 =>
    (scalarMulAux k point m).bind fun acc =>
    acc.double.bind fun acc2 =>
    if k / 2 ^ (256 - (m + 1)) % 2 = 1 then acc2.add point else some acc2

/-- Modelled from the spec: `scalarMul(scalar, point)`, the full 256
iterations of double-and-add. -/
def scalarMul (k : Nat) (point : JacobianPoint) : Option JacobianPoint :=
  scalarMulAux k point 256

/-- Modelled from the spec: `KeyPair::generate` (its body is a `todo` stub
in `keypair.rs`).  The randomness source is a list of 256-bit draws;
rejection sampling skips a draw that is 0 or at least `N`, the first
accepted scalar `k` is paired with the affine conversion of
`scalarMul(k, Jacobian(G))`, and exhausting the source is a generation
failure (`none`), as is any abort inside the curve arithmetic. -/
def KeyPair.generate : List Nat → Option KeyPair
  | [] => none
  | d :: rest =>
    if d = 0 ∨ N ≤ d then KeyPair.generate rest
    else
      (scalarMul d (JacobianPoint.fromEcPoint gAffine)).bind fun q =>
      (EcPoint.fromJacobian q).bind fun pub =>
      some ⟨⟨d⟩, ⟨pub⟩⟩

/-! ## Shared lemmas -/

theorem FieldElement.ext_value {a b : FieldElement} (h : a.value = b.value) : a = b := by
  cases a; cases b; cases h; rfl

theorem FieldElement.sub_self_eq (a : FieldElement) : FieldElement.sub a a = some ⟨0⟩ := by
  simp [FieldElement.sub, FieldElement.new]

theorem FieldElement.sub_zero_right (a : FieldElement) :
    FieldElement.sub a ⟨0⟩ = some (FieldElement.new a.value) := by
  simp [FieldElement.sub]

theorem FieldElement.mul_zero_right (a : FieldElement) : FieldElement.mul a ⟨0⟩ = ⟨0⟩ := by
  simp [FieldElement.mul, multiply, FieldElement.new]

theorem FieldElement.zero_mul_left (a : FieldElement) : FieldElement.mul ⟨0⟩ a = ⟨0⟩ := by
  simp [FieldElement.mul, multiply, FieldElement.new]

theorem FieldElement.sub_isSome (a b : FieldElement) (hb : b.value ≤ P) :
    ∃ c, FieldElement.sub a b = some c := by
  unfold FieldElement.sub u256sub
  by_cases h : b.value ≤ a.value
  · exact ⟨_, by rw [if_pos h]⟩
  · have hle : b.value - a.value ≤ P := le_trans (Nat.sub_le _ _) hb
    exact ⟨_, by rw [if_neg h, if_pos hle]; rfl⟩

theorem FieldElement.mul_value_lt (a b : FieldElement) : (FieldElement.mul a b).value < P :=
  FieldElement.new_value_lt _

/-- Pulling an inner reduction out of a product does not change the residue. -/
theorem mod_absorb_right (a b : Nat) : (a * (b % P)) % P = (a * b) % P := by
  conv_lhs => rw [Nat.mul_mod]
  rw [Nat.mod_mod_of_dvd _ dvd_rfl, ← Nat.mul_mod]

/-- Two iterations of the inversion loop on the state reached for the
input 1 return to the same state: `(t, newT, r, newR) = (0, 1, P, 1)`
steps to `(1, 0, 1, P)` and back, because `multiply (P / 1) 1` reduces
`P` to `0` modulo `P`. -/
theorem inverseLoop_one_cycle (fuel : Nat) :
    inverseLoop (fuel + 2) 0 1 P 1 = inverseLoop fuel 0 1 P 1 := rfl

/-- The `while` loop inside `FieldElement::inverse` never terminates on the
input 1, whatever the fuel: the state cycles with period two. -/
theorem inverseLoop_one_diverges (fuel : Nat) : inverseLoop fuel 0 1 P 1 = none := by
  induction fuel using Nat.strong_induction_on with
  | _ fuel ih =>
    match fuel with
    | 0 => rfl
    | 1 => rfl
    | f + 2 => rw [inverseLoop_one_cycle]; exact ih f (by omega)

/-! ## Claim theorems -/

set_option maxRecDepth 400000

/-- C1: the claimed cross-representation equivalence for G, 2G, ..., 8G
fails on the code.  Converting the Jacobian G (z = 1) aborts — the
conversion inverts z² = 1 and `FieldElement::inverse` never terminates on
1 — and already at 2G the Jacobian double/add chain converts to an affine
point different from the one affine addition computes (the doubling
routine uses c = y³ where the Jacobian doubling formula needs y⁴), even
though both sides produce values. -/
theorem c1_cross_representation_fails :
    (jacSeq 1).bind EcPoint.fromJacobian = none
    ∧ affSeq 1 = some gAffine
    ∧ ((jacSeq 2).bind EcPoint.fromJacobian).isSome = true
    ∧ (affSeq 2).isSome = true
    ∧ (jacSeq 2).bind EcPoint.fromJacobian ≠ affSeq 2 := by
  refine ⟨by decide, by decide, by decide, by decide, by decide⟩

/-- C2: `FieldElement` addition is not total on canonically reduced
operands: for a = b = P − 1 the raw 256-bit sum overflows and the `U256`
addition aborts, so `add` fails where the claim promises `(a + b) mod P`.
Subtraction does behave as claimed (second conjunct mirrors the test
`test_sub_with_modular_wrap`). -/
theorem c2_add_overflow_aborts :
    FieldElement.add (FieldElement.new (P - 1)) (FieldElement.new (P - 1)) = none
    ∧ FieldElement.sub (FieldElement.new 5) (FieldElement.new 10)
        = some (FieldElement.new (P - 5)) := by
  refine ⟨by decide, by decide⟩

/-- C3 counterexample: doubling the generator with `EcPoint::add` does not
return the point named in the claim — the claimed y-coordinate
0x1AE168FEA63DC339A3C58419466CEAEEF7F632653266D0E1236431A950CFE52 is a
63-hex-digit value, the true coordinate with its last hex digit dropped. -/
theorem c3_claimed_double_wrong :
    EcPoint.add gAffine gAffine ≠
      some (EcPoint.Point
        (FieldElement.new 0xC6047F9441ED7D6D3045406E95C07CD85C778E4B8CEF3CA7ABAC09B95C709EE5)
        (FieldElement.new 0x1AE168FEA63DC339A3C58419466CEAEEF7F632653266D0E1236431A950CFE52)) := by
  decide

/-- C3 amended: doubling the generator with `EcPoint::add` returns exactly
(0xC6047F9441ED7D6D3045406E95C07CD85C778E4B8CEF3CA7ABAC09B95C709EE5,
0x1AE168FEA63DC339A3C58419466CEAEEF7F632653266D0E1236431A950CFE52A) —
the y-coordinate ends in ...E52A, matching the decimal regression constant
in the source's own test `test_known_point_doubling_result`. -/
theorem c3_generator_double_value :
    EcPoint.add gAffine gAffine =
      some (EcPoint.Point
        (FieldElement.new 0xC6047F9441ED7D6D3045406E95C07CD85C778E4B8CEF3CA7ABAC09B95C709EE5)
        (FieldElement.new 0x1AE168FEA63DC339A3C58419466CEAEEF7F632653266D0E1236431A950CFE52A)) := by
  decide

/-- C4: `a * inverse(a) = 1` fails at a = 1: the extended Euclidean loop
never terminates there (for every fuel), because `multiply(P / 1, 1)`
reduces `P` modulo `P` to 0 and the remainder track cycles, so `inverse`
never returns.  For comparison, the third conjunct checks the claim
does hold at a = 2. -/
theorem c4_inverse_of_one_diverges :
    (∀ fuel, inverseLoop fuel 0 1 P 1 = none)
    ∧ FieldElement.inverse (FieldElement.new 1) = none
    ∧ (FieldElement.inverse (FieldElement.new 2)).map
        (fun t => FieldElement.mul (FieldElement.new 2) t)
        = some (FieldElement.new 1) := by
  refine ⟨inverseLoop_one_diverges, by decide, by decide⟩

/-- C5: inversion of zero fails (the source aborts before the loop), and
division by the zero field element fails the same way for every dividend;
neither returns a sentinel value. -/
theorem c5_zero_inverse_fails :
    FieldElement.inverse (FieldElement.new 0) = none
    ∧ ∀ a : FieldElement, FieldElement.div a (FieldElement.new 0) = none := by
  exact ⟨rfl, fun a => rfl⟩

/-- C6: multiplication goes through a 512-bit intermediate, so for every
pair of operands (in particular all canonically reduced ones) the result
is exactly the field element with value (a·b) mod P; the second conjunct
is the (P−1)·(P−1) regression instance. -/
theorem c6_mul_exact :
    (∀ a b : FieldElement, (FieldElement.mul a b).value = (a.value * b.value) % P)
    ∧ (FieldElement.mul (FieldElement.new (P - 1)) (FieldElement.new (P - 1))).value
        = ((P - 1) * (P - 1)) % P := by
  refine ⟨FieldElement.mul_value, by decide⟩

/-- C7: every `FieldElement`-producing operation that returns a value
returns one whose stored value lies in [0, P): each success path ends in
`FieldElement::new`, which reduces modulo P. -/
theorem c7_canonical_invariant :
    (∀ v : Nat, (FieldElement.new v).value < P)
    ∧ (∀ a b c : FieldElement, FieldElement.add a b = some c → c.value < P)
    ∧ (∀ a b c : FieldElement, FieldElement.sub a b = some c → c.value < P)
    ∧ (∀ a b : FieldElement, (FieldElement.mul a b).value < P)
    ∧ (∀ a c : FieldElement, FieldElement.inverse a = some c → c.value < P)
    ∧ (∀ a b c : FieldElement, FieldElement.div a b = some c → c.value < P) := by
  refine ⟨fun v => FieldElement.new_value_lt v, ?_, ?_, ?_, ?_, ?_⟩
  · intro a b c h
    unfold FieldElement.add u256add at h
    by_cases hlt : a.value + b.value < U256SIZE
    · rw [if_pos hlt] at h
      cases h
      exact FieldElement.new_value_lt _
    · rw [if_neg hlt] at h
      cases h
  · intro a b c h
    unfold FieldElement.sub u256sub at h
    by_cases hle : b.value ≤ a.value
    · rw [if_pos hle] at h
      cases h
      exact FieldElement.new_value_lt _
    · rw [if_neg hle] at h
      by_cases hP : b.value - a.value ≤ P
      · rw [if_pos hP] at h
        cases h
        exact FieldElement.new_value_lt _
      · rw [if_neg hP] at h
        cases h
  · intro a b
    exact FieldElement.new_value_lt _
  · intro a c h
    unfold FieldElement.inverse at h
    by_cases h0 : a.value = 0
    · rw [if_pos h0] at h; cases h
    · rw [if_neg h0] at h
      by_cases hP : P ≤ a.value
      · rw [if_pos hP] at h; cases h
      · rw [if_neg hP] at h
        cases hloop : inverseLoop (a.value + 1) 0 1 P a.value with
        | none => rw [hloop] at h; cases h
        | some tr =>
          rw [hloop] at h
          simp only [Option.some_bind] at h
          by_cases hr : 1 < tr.2
          · rw [if_pos hr] at h; cases h
          · rw [if_neg hr] at h
            cases h
            exact FieldElement.new_value_lt _
  · intro a b c h
    unfold FieldElement.div at h
    cases hinv : FieldElement.inverse b with
    | none => rw [hinv] at h; cases h
    | some i =>
      rw [hinv] at h
      cases h
      exact FieldElement.new_value_lt _

/-- C7 witness: the invariant theorem applied at concrete inputs, one per
operation, with each success hypothesis discharged by evaluation. -/
theorem c7_canonical_invariant_witness :
    (FieldElement.new 5).value < P
    ∧ (FieldElement.new 3).value < P
    ∧ (FieldElement.new 7).value < P
    ∧ (FieldElement.mul (FieldElement.new 2) (FieldElement.new 3)).value < P
    ∧ (FieldElement.new ((P + 1) / 2)).value < P
    ∧ (FieldElement.new 5).value < P :=
  ⟨c7_canonical_invariant.1 5,
   c7_canonical_invariant.2.1 (FieldElement.new 1) (FieldElement.new 2)
     (FieldElement.new 3) (by decide),
   c7_canonical_invariant.2.2.1 (FieldElement.new 10) (FieldElement.new 3)
     (FieldElement.new 7) (by decide),
   c7_canonical_invariant.2.2.2.1 (FieldElement.new 2) (FieldElement.new 3),
   c7_canonical_invariant.2.2.2.2.1 (FieldElement.new 2)
     (FieldElement.new ((P + 1) / 2)) (by decide),
   c7_canonical_invariant.2.2.2.2.2 (FieldElement.new 10) (FieldElement.new 2)
     (FieldElement.new 5) (by decide)⟩

/-- C8: the affine/Jacobian round trip holds for Infinity but fails for
the generator: `EcPoint::from(JacobianPoint::from(G))` inverts z² = 1 and
`FieldElement::inverse` never terminates on 1 (see
`inverseLoop_one_diverges`), so the conversion never returns G. -/
theorem c8_roundtrip :
    EcPoint.fromJacobian (JacobianPoint.fromEcPoint EcPoint.Infinity) = some EcPoint.Infinity
    ∧ EcPoint.fromJacobian (JacobianPoint.fromEcPoint gAffine) = none := by
  refine ⟨by decide, by decide⟩

/-- C9: for any two non-infinite Jacobian operands that are structurally
distinct but whose normalized x-coordinates coincide modulo P,
`JacobianPoint::add` takes the general branch (not the doubling fast
path) and returns a triple whose z-coordinate is the zero field element,
i.e. a point classified as infinity: h = u2 − u1 reduces to 0, so
z₃ = h·z₁·z₂ = 0, and every intermediate subtraction succeeds because its
subtrahend is already reduced. -/
theorem c9_same_normalized_x_gives_infinity (p q : JacobianPoint)
    (hp : p.is_infinity = false) (hq : q.is_infinity = false) (hne : p ≠ q)
    (hx : (p.x.value * (q.z.value * q.z.value)) % P
        = (q.x.value * (p.z.value * p.z.value)) % P) :
    ∃ t, JacobianPoint.add p q = some t ∧ t.is_infinity = true := by
  have hu : FieldElement.mul q.x (FieldElement.mul p.z p.z)
      = FieldElement.mul p.x (FieldElement.mul q.z q.z) := by
    apply FieldElement.ext_value
    rw [FieldElement.mul_value, FieldElement.mul_value, FieldElement.mul_value,
      FieldElement.mul_value, mod_absorb_right, mod_absorb_right]
    exact hx.symm
  obtain ⟨r0, hr0⟩ := FieldElement.sub_isSome
    (FieldElement.mul (FieldElement.mul q.y (FieldElement.mul p.z p.z)) p.z)
    (FieldElement.mul (FieldElement.mul p.y (FieldElement.mul q.z q.z)) q.z)
    (le_of_lt (FieldElement.mul_value_lt _ _))
  obtain ⟨d2v, hd2⟩ := FieldElement.sub_isSome (⟨0⟩ : FieldElement)
    (FieldElement.new (FieldElement.new (FieldElement.mul r0 r0).value).value)
    (le_of_lt (FieldElement.new_value_lt _))
  unfold JacobianPoint.add
  rw [if_neg (show ¬(p.is_infinity = true) by simp [hp]),
    if_neg (show ¬(q.is_infinity = true) by simp [hq]), if_neg hne]
  simp only [hu, FieldElement.sub_self_eq, FieldElement.mul_zero_right,
    FieldElement.zero_mul_left, hr0, FieldElement.sub_zero_right, hd2,
    Option.some_bind]
  exact ⟨_, rfl, rfl⟩

/-- A second Jacobian representative of the affine generator: the
coordinates of `gJacobian` rescaled by the factor 2, i.e.
(2²·Gx, 2³·Gy, 2). -/
def gJacobianRescaled : JacobianPoint :=
  ⟨FieldElement.new (4 * GX), FieldElement.new (8 * GY), FieldElement.new 2⟩

/-- C9 witness: the generator and its rescaled-by-2 representative are
structurally distinct non-infinite triples with the same normalized
x-coordinate, and adding them indeed produces a z = 0 triple. -/
theorem c9_same_normalized_x_gives_infinity_witness :
    ∃ t, JacobianPoint.add gJacobian gJacobianRescaled = some t
      ∧ t.is_infinity = true :=
  c9_same_normalized_x_gives_infinity gJacobian gJacobianRescaled
    (by decide) (by decide) (by decide) (by decide)

/-- C10: key-pair generation cannot succeed.  The draw 1 passes rejection
sampling (0 < 1 < N), but `scalarMul(1, Jacobian(G))` aborts: the
double-and-add loop doubles the accumulator 256 times, doubling z = 0
representatives of infinity whose coordinates grow until the single
`FieldElement` addition `x + b` inside `double` overflows its `U256`. -/
theorem c10_generate_always_fails :
    (0 < 1 ∧ 1 < N) ∧ KeyPair.generate [1] = none := by
  refine ⟨⟨by decide, by decide⟩, by decide⟩

end Engine

